import Mathlib

/-!
Verification of the debug-sample navigation engine
(`apiserver/bll/event/debug_sample_history.py`).

The search index is embedded as a list of documents scoped to one
company/tenant and the metrics-image event type; every query the engine
issues is a filter over that list followed by a sort and a size-1 cut.
The Redis cursor cache is embedded as a key-value environment.
-/

/-- A debug-image event document as stored in the search index, restricted to
the fields the engine reads: `task`, `metric`, `variant`, `iter` and the
payload-reference field `url` (whose presence marks a usable sample). -/
structure Document where
  task : String
  metric : String
  variant : String
  iter : Int
  url : Option String
deriving DecidableEq

/-- VariantState from the source: a variant name with its valid iteration
window. -/
structure VariantState where
  name : String
  min_iteration : Int
  max_iteration : Int
deriving DecidableEq

/-- DebugSampleHistoryState from the source.  Fields that start out as
Python `None` before first assignment are given neutral defaults here
(`0`, `""`); the claimed execution paths never read them before writing.
`warning` keeps an `Option` because no code path ever assigns it. -/
structure DebugSampleHistoryState where
  id : String
  iteration : Int
  variant : String
  task : String
  metric : String
  reached_first : Bool
  reached_last : Bool
  variant_states : List VariantState
  warning : Option String
deriving DecidableEq

/-- DebugSampleHistoryResult from the source; all fields default to `None`. -/
structure DebugSampleHistoryResult where
  scroll_id : Option String := none
  event : Option Document := none
  min_iteration : Option Int := none
  max_iteration : Option Int := none
deriving DecidableEq

/-- The only error the engine raises on the claimed paths:
`errors.bad_request.InvalidScrollId`. -/
inductive ApiError where
  | invalidScrollId (scroll_id : String)
deriving DecidableEq

/-- Modelled from the spec: the CursorStateStore environment (the
`RedisCacheManager` lives outside `src/`).  `cache` maps cursor ids to
states; `supply` is the stream of fresh ids the store mints when no id is
supplied (spec section 4.2: a freshly minted identifier when `id` is
absent). -/
structure CacheEnv where
  cache : List (String × DebugSampleHistoryState)
  supply : List String
deriving DecidableEq

/-- Modelled from the spec: `CursorStateStore.get` — a pure read returning
the stored state or nothing. -/
def get_state (env : CacheEnv) (state_id : String) : Option DebugSampleHistoryState :=
  (env.cache.find? (fun p => decide (p.1 = state_id))).map (·.2)

/-- Modelled from the spec: `CursorStateStore.save` — writes or overwrites
the state under its own id. -/
def set_state (env : CacheEnv) (state : DebugSampleHistoryState) : CacheEnv :=
  { env with cache := (state.id, state) :: env.cache.filter (fun p => !(decide (p.1 = state.id))) }

/-- Modelled from the spec: minting a fresh cursor identifier when none is
supplied, drawn from the environment's id supply. -/
def mint_id (env : CacheEnv) : String × CacheEnv :=
  (env.supply.headD "", { env with supply := env.supply.tail })

/-- Modelled from the spec: `check_empty_data` (event_common, outside
`src/`) reports whether the index holds zero documents for the
tenant/event-type. -/
def check_empty_data (index : List Document) : Bool :=
  index.isEmpty

/-- Insertion step of a stable sort by a key, used to embed the search
backend's explicitly ordered aggregations and sorts. -/
def insertByKey {α β : Type} [LinearOrder β] (key : α → β) (x : α) : List α → List α
  | [] => [x]
  | y :: ys => if key x ≤ key y then x :: y :: ys else y :: insertByKey key x ys

/-- Stable insertion sort by a key, ascending. -/
def sortByKey {α β : Type} [LinearOrder β] (key : α → β) : List α → List α
  | [] => []
  | x :: xs => insertByKey key x (sortByKey key xs)

/-- Maximum of a list of integers (the backend's `max` aggregation); the
default is never reached on the paths where it is used, since those
aggregate non-empty buckets. -/
def listMaxInt : List Int → Int
  | [] => 0
  | x :: xs => if xs.isEmpty then x else max x (listMaxInt xs)

/-- Minimum of a list of integers. -/
def listMinInt : List Int → Int
  | [] => 0
  | x :: xs => if xs.isEmpty then x else min x (listMinInt xs)

/-- Documents matching the resolver query of `_get_variant_iterations`:
same task and metric, payload reference present, and, when a non-empty
variants list is passed, variant among them (Python truthiness makes an
empty or absent list skip the filter). -/
def matchingDocs (task metric : String) (variants : List String) (index : List Document) : List Document :=
  index.filter fun d =>
    decide (d.task = task) && decide (d.metric = metric) && d.url.isSome
      && (variants.isEmpty || decide (d.variant ∈ variants))

/-- Variant bucket keys of the resolver's terms aggregation: distinct
variant names of the matching documents, ordered ascending by key, with
the bucket count bounded by the configured maximum variant count
(`EventSettings.max_variants_count`, outside `src/`, kept as a
parameter). -/
def variantKeys (docs : List Document) (max_variants_count : Nat) : List String :=
  (sortByKey id (docs.map (·.variant)).dedup).take max_variants_count

/-- Distinct payload references among a bucket's documents (the `urls`
terms sub-aggregation keys). -/
def urlsOf (docs : List Document) : List String :=
  (docs.filterMap (·.url)).dedup

/-- The `max_iter` sub-aggregation: maximum iteration among the documents
carrying a given payload reference. -/
def url_max_iter (docs : List Document) (u : String) : Int :=
  listMaxInt ((docs.filter fun d => decide (d.url = some u)).map (·.iter))

/-- The url buckets of a variant bucket, each paired with its `max_iter`
value. -/
def urlBuckets (docs : List Document) : List (String × Int) :=
  (urlsOf docs).map fun u => (u, url_max_iter docs u)

/-- The documents of one variant bucket. -/
def variantDocs (task metric : String) (variants : List String) (index : List Document) (v : String) : List Document :=
  (matchingDocs task metric variants index).filter fun d => decide (d.variant = v)

/-- `get_variant_data` from the source: for one variant bucket,
`min_iter` reads the `max_iter` value of the first url bucket after
ordering url buckets by `max_iter` ascending with bucket size one, and
`max_iter` is the `last_iter` max aggregation over the whole bucket. -/
def get_variant_data (task metric : String) (variants : List String) (index : List Document) (v : String) : String × Int × Int :=
  let docs := variantDocs task metric variants index v
  let min_iter := ((sortByKey Prod.snd (urlBuckets docs)).head?.map Prod.snd).getD 0
  let max_iter := listMaxInt (docs.map (·.iter))
  (v, min_iter, max_iter)

/-- `_get_variant_iterations` from the source: one `(variant, min_iter,
max_iter)` triple per variant bucket, buckets ordered ascending by
variant name. -/
def get_variant_iterations (task metric : String) (variants : List String) (max_variants_count : Nat) (index : List Document) : List (String × Int × Int) :=
  (variantKeys (matchingDocs task metric variants index) max_variants_count).map
    (get_variant_data task metric variants index)

/-- Spec-side formula for the resolver's `min_iteration`: group the
matching documents by payload reference, take the maximum iteration of
each group, and take the smallest of those per-payload maxima. -/
def specMinIteration (docs : List Document) : Int :=
  listMinInt ((urlsOf docs).map (url_max_iter docs))

/-- `_reset_variant_states` from the source: rebuild `variant_states`
from the resolver output, in resolver order. -/
def reset_variant_states (max_variants_count : Nat) (index : List Document) (state : DebugSampleHistoryState) : DebugSampleHistoryState :=
  { state with
      variant_states :=
        (get_variant_iterations state.task state.metric [] max_variants_count index).map
          fun t => ⟨t.1, t.2.1, t.2.2⟩ }

/-- Size-one cut of a sorted search: the first document under the strict
`better` order, ties resolved to the earlier document in the index. -/
def firstHit (better : Document → Document → Bool) : List Document → Option Document
  | [] => none
  | d :: ds =>
    some (match firstHit better ds with
          | none => d
          | some b => if better b d then b else d)

/-- `_get_next_for_current_iteration` from the source: same-iteration
sibling search.  Candidates are the variant states on the strict side of
the current variant name whose window has opened
(`min_iteration <= state.iteration`); the query matches documents of the
current iteration for those variants and takes the first by variant name,
descending when navigating earlier and ascending otherwise. -/
def get_next_for_current_iteration (navigate_earlier : Bool) (state : DebugSampleHistoryState) (index : List Document) : Option Document :=
  let variants := state.variant_states.filter fun v =>
    (if navigate_earlier then decide (v.name < state.variant) else decide (state.variant < v.name))
      && decide (v.min_iteration ≤ state.iteration)
  if variants.isEmpty then none
  else
    firstHit
      (fun b d => if navigate_earlier then decide (d.variant < b.variant) else decide (b.variant < d.variant))
      (index.filter fun d =>
        decide (d.task = state.task) && decide (d.metric = state.metric)
          && decide (d.variant ∈ variants.map VariantState.name)
          && decide (d.iter = state.iteration) && d.url.isSome)

/-- Sort order of the cross-iteration search: by iteration then variant
name, both descending when navigating earlier and ascending otherwise. -/
def betterAcrossIters (navigate_earlier : Bool) (b d : Document) : Bool :=
  if navigate_earlier then
    decide (d.iter < b.iter) || (decide (b.iter = d.iter) && decide (d.variant < b.variant))
  else
    decide (b.iter < d.iter) || (decide (b.iter = d.iter) && decide (b.variant < d.variant))

/-- `_get_next_for_another_iteration` from the source: cross-iteration
search.  Backward candidates are the variant states with
`min_iteration < state.iteration`; forward candidates are all variant
states.  Each candidate contributes the sub-condition
`variant = v AND iter >= v.min_iteration`, combined with OR, conjoined
with the strict iteration bound in the direction of travel. -/
def get_next_for_another_iteration (navigate_earlier : Bool) (state : DebugSampleHistoryState) (index : List Document) : Option Document :=
  let variants :=
    if navigate_earlier then
      state.variant_states.filter fun v => decide (v.min_iteration < state.iteration)
    else
      state.variant_states
  if variants.isEmpty then none
  else
    firstHit (betterAcrossIters navigate_earlier)
      (index.filter fun d =>
        decide (d.task = state.task) && decide (d.metric = state.metric) && d.url.isSome
          && variants.any (fun v => decide (v.name = d.variant) && decide (v.min_iteration ≤ d.iter))
          && (if navigate_earlier then decide (d.iter < state.iteration) else decide (state.iteration < d.iter)))

/-- `_fill_res_and_update_state` from the source: record the selected
document's variant and iteration in the state, attach the document to the
result, and copy the matching variant state's bounds into the result when
one exists. -/
def fill_res_and_update_state (image : Document) (res : DebugSampleHistoryResult) (state : DebugSampleHistoryState) : DebugSampleHistoryResult × DebugSampleHistoryState :=
  let state' := { state with variant := image.variant, iteration := image.iter }
  let res' := { res with event := some image }
  match state'.variant_states.find? (fun s => decide (s.name = state'.variant)) with
  | some var_state =>
    ({ res' with
        min_iteration := some var_state.min_iteration,
        max_iteration := some var_state.max_iteration }, state')
  | none => (res', state')

/-- `get_next_debug_image` from the source (the `advance` operation):
load and validate the cursor state, return the bare result on an empty
index, try the same-iteration search and then the cross-iteration search,
and on a hit update the state and save it back. -/
def get_next_debug_image (task state_id : String) (navigate_earlier : Bool) (index : List Document) (env : CacheEnv) : Except ApiError (DebugSampleHistoryResult × CacheEnv) :=
  let res : DebugSampleHistoryResult := { scroll_id := some state_id }
  match get_state env state_id with
  | none => .error (.invalidScrollId state_id)
  | some state =>
    if state.task ≠ task then .error (.invalidScrollId state_id)
    else if check_empty_data index then .ok (res, env)
    else
      match (get_next_for_current_iteration navigate_earlier state index).orElse
              (fun _ => get_next_for_another_iteration navigate_earlier state index) with
      | none => .ok (res, env)
      | some image =>
        let rs := fill_res_and_update_state image res state
        .ok (rs.1, set_state env rs.2)

/-- A freshly constructed state as the transaction's init step leaves it:
id, task and metric assigned, everything else at its unset default. -/
def new_state (state_id task metric : String) : DebugSampleHistoryState :=
  { id := state_id, iteration := 0, variant := "", task := task, metric := metric,
    reached_first := false, reached_last := false, variant_states := [], warning := none }

/-- Body of the `with get_or_create_state` block of
`get_debug_image_for_variant`: look up the requested variant's range
(returning only the cursor id when absent), query for the latest document
of that variant within the valid window and below the requested iteration
when one is given, and apply a hit to the state.  The context manager
saves the state on every normal exit, including the early returns. -/
def jump_body (task metric variant : String) (iteration : Option Int) (index : List Document) (env : CacheEnv) (state : DebugSampleHistoryState) : DebugSampleHistoryResult × CacheEnv :=
  let res : DebugSampleHistoryResult := { scroll_id := some state.id }
  match state.variant_states.find? (fun s => decide (s.name = variant)) with
  | none => (res, set_state env state)
  | some var_state =>
    let res := { res with
      min_iteration := some var_state.min_iteration,
      max_iteration := some var_state.max_iteration }
    match
      firstHit (fun b d => decide (d.iter < b.iter))
        (index.filter fun d =>
          decide (d.task = task) && decide (d.metric = metric) && decide (d.variant = variant)
            && d.url.isSome
            && decide (var_state.min_iteration ≤ d.iter)
            && (match iteration with | some it => decide (d.iter ≤ it) | none => true))
    with
    | none => (res, set_state env state)
    | some image =>
      let rs := fill_res_and_update_state image res state
      (rs.1, set_state env rs.2)

/-- `get_debug_image_for_variant` from the source (the `jumpToVariant`
operation): empty-index early return before any cursor work, then the
get-or-create transaction — load the stored state and reject a
task/metric mismatch (re-resolving ranges when refresh is set), or build
a fresh state under the supplied or minted id — followed by the query
body. -/
def get_debug_image_for_variant (task metric variant : String) (iteration : Option Int) (refresh : Bool) (state_id : Option String) (max_variants_count : Nat) (index : List Document) (env : CacheEnv) : Except ApiError (DebugSampleHistoryResult × CacheEnv) :=
  if check_empty_data index then .ok ({}, env)
  else
    let ienv := match state_id with
      | some i => (i, env)
      | none => mint_id env
    match get_state ienv.2 ienv.1 with
    | some state0 =>
      if state0.task ≠ task ∨ state0.metric ≠ metric then .error (.invalidScrollId ienv.1)
      else
        .ok (jump_body task metric variant iteration index ienv.2
              (if refresh then reset_variant_states max_variants_count index state0 else state0))
    | none =>
      .ok (jump_body task metric variant iteration index ienv.2
            (reset_variant_states max_variants_count index (new_state ienv.1 task metric)))

/-- Concrete index for the recycling scenario of the spec: variant `x`
reports at iterations 1 and 2 with one shared payload reference and at
iteration 3 with a new one. -/
def c1Index : List Document :=
  [⟨"t", "m", "x", 1, some "u1"⟩, ⟨"t", "m", "x", 2, some "u1"⟩, ⟨"t", "m", "x", 3, some "u2"⟩]

/-- Concrete one-document index used to exercise the jump operation. -/
def c8Index : List Document :=
  [⟨"t", "m", "v", 0, some "u"⟩]

/-- Concrete cache environment with an empty cache and two fresh ids in
the mint supply. -/
def c8Env : CacheEnv :=
  ⟨[], ["f1", "f2"]⟩

/-- First jump call with no cursor id supplied. -/
def c8_call1 : Except ApiError (DebugSampleHistoryResult × CacheEnv) :=
  get_debug_image_for_variant "t" "m" "v" none false none 10 c8Index c8Env

/-- Second jump call with identical arguments, run on the environment the
first call produced. -/
def c8_call2 : Except ApiError (DebugSampleHistoryResult × CacheEnv) :=
  match c8_call1 with
  | .ok pe => get_debug_image_for_variant "t" "m" "v" none false none 10 c8Index pe.2
  | .error err => .error err

/-- Concrete state for the tie-break scenario: currently at variant `a`,
iteration 5, with variants `a` and `b` both valid from iteration 0. -/
def c2St : DebugSampleHistoryState :=
  ⟨"s1", 5, "a", "t", "m", false, false, [⟨"a", 0, 9⟩, ⟨"b", 0, 9⟩], none⟩

/-- Concrete index for the tie-break scenario: variant `b` has a document
at iteration 5 and another at the later iteration 8. -/
def c2Index : List Document :=
  [⟨"t", "m", "b", 8, some "u8"⟩, ⟨"t", "m", "b", 5, some "u5"⟩]

/-- Concrete cache holding the tie-break state under its id. -/
def c2Env : CacheEnv :=
  ⟨[("s1", c2St)], []⟩

/-- Concrete state for the cross-iteration scenario: at iteration 5 with
a single variant `b` valid from iteration 3. -/
def c3St : DebugSampleHistoryState :=
  ⟨"s1", 5, "a", "t", "m", false, false, [⟨"b", 3, 9⟩], none⟩

/-- Concrete document for the cross-iteration scenario, at iteration 7. -/
def c3Doc : Document :=
  ⟨"t", "m", "b", 7, some "u"⟩

/-- Concrete state with no variant states, stored under id `s1`; both
navigation phases then find nothing. -/
def c6St : DebugSampleHistoryState :=
  ⟨"s1", 5, "a", "t", "m", false, false, [], none⟩

/-- Concrete cache holding that state. -/
def c6Env : CacheEnv :=
  ⟨[("s1", c6St)], []⟩

/-- Concrete state whose variant states do not mention the selected
document's variant. -/
def c9St : DebugSampleHistoryState :=
  ⟨"id1", 0, "", "t", "m", false, false, [⟨"a", 0, 5⟩], none⟩

/-- Concrete selected document of a variant absent from the state. -/
def c9Img : Document :=
  ⟨"t", "m", "zzz", 7, some "u"⟩

/-- A variant-state list sorted ascending by variant name. -/
def sortedByName (l : List VariantState) : Prop :=
  l.Pairwise (fun a b => a.name ≤ b.name)

/-- Every state stored in the cache has its variant states sorted
ascending by name. -/
def cacheSorted (env : CacheEnv) : Prop :=
  ∀ p ∈ env.cache, sortedByName p.2.variant_states

/-- Membership in the insertion step of the key sort. -/
theorem mem_insertByKey {α β : Type} [LinearOrder β] (key : α → β) (x a : α) (l : List α) :
    a ∈ insertByKey key x l ↔ a = x ∨ a ∈ l := by
  induction l with
  | nil => simp [insertByKey]
  | cons y ys ih =>
    by_cases h : key x ≤ key y
    · simp [insertByKey, h, List.mem_cons]
    · simp [insertByKey, h, List.mem_cons, ih]
      tauto

/-- The insertion step preserves sortedness by the key. -/
theorem pairwise_insertByKey {α β : Type} [LinearOrder β] (key : α → β) (x : α) (l : List α)
    (h : l.Pairwise (fun a b => key a ≤ key b)) :
    (insertByKey key x l).Pairwise (fun a b => key a ≤ key b) := by
  induction l with
  | nil => simp [insertByKey]
  | cons y ys ih =>
    rw [List.pairwise_cons] at h
    by_cases hxy : key x ≤ key y
    · rw [insertByKey, if_pos hxy]
      refine List.pairwise_cons.2 ⟨?_, List.pairwise_cons.2 ⟨h.1, h.2⟩⟩
      intro b hb
      rcases List.mem_cons.1 hb with rfl | hb
      · exact hxy
      · exact le_trans hxy (h.1 b hb)
    · rw [insertByKey, if_neg hxy]
      refine List.pairwise_cons.2 ⟨?_, ih h.2⟩
      intro b hb
      rcases (mem_insertByKey key x b ys).1 hb with rfl | hb
      · exact le_of_not_le hxy
      · exact h.1 b hb

/-- The key sort is a permutation in the membership sense. -/
theorem mem_sortByKey {α β : Type} [LinearOrder β] (key : α → β) (a : α) (l : List α) :
    a ∈ sortByKey key l ↔ a ∈ l := by
  induction l with
  | nil => simp [sortByKey]
  | cons x xs ih => simp [sortByKey, mem_insertByKey, ih, List.mem_cons]

/-- The key sort produces a list sorted by the key. -/
theorem pairwise_sortByKey {α β : Type} [LinearOrder β] (key : α → β) (l : List α) :
    (sortByKey key l).Pairwise (fun a b => key a ≤ key b) := by
  induction l with
  | nil => simp [sortByKey]
  | cons x xs ih => exact pairwise_insertByKey key x _ ih

/-- The head of the key sort is a member of the original list with minimal
key. -/
theorem sortByKey_head_min {α β : Type} [LinearOrder β] (key : α → β) (l : List α) (m : α)
    (t : List α) (h : sortByKey key l = m :: t) : m ∈ l ∧ ∀ a ∈ l, key m ≤ key a := by
  have hm : m ∈ l := (mem_sortByKey key m l).1 (h ▸ List.mem_cons_self m t)
  refine ⟨hm, fun a ha => ?_⟩
  have ha' : a ∈ m :: t := h ▸ (mem_sortByKey key a l).2 ha
  rcases List.mem_cons.1 ha' with rfl | hat
  · exact le_refl _
  · have hp := pairwise_sortByKey key l
    rw [h, List.pairwise_cons] at hp
    exact hp.1 a hat

/-- Sorting a non-empty list yields a non-empty list. -/
theorem sortByKey_ne_nil {α β : Type} [LinearOrder β] (key : α → β) (l : List α) (h : l ≠ []) :
    sortByKey key l ≠ [] := by
  obtain ⟨x, hx⟩ := List.exists_mem_of_ne_nil l h
  intro hc
  have := (mem_sortByKey key x l).2 hx
  rw [hc] at this
  exact absurd this (List.not_mem_nil x)

/-- A hit of the size-one sorted search is a member of the searched list. -/
theorem firstHit_mem (better : Document → Document → Bool) :
    ∀ (l : List Document) (d : Document), firstHit better l = some d → d ∈ l := by
  intro l
  induction l with
  | nil => intro d h; simp [firstHit] at h
  | cons x xs ih =>
    intro d h
    rw [firstHit] at h
    cases hfh : firstHit better xs with
    | none =>
      rw [hfh] at h
      simp only [Option.some.injEq] at h
      exact h ▸ List.mem_cons_self x xs
    | some b =>
      rw [hfh] at h
      simp only [Option.some.injEq] at h
      by_cases hb : better b x = true
      · rw [if_pos hb] at h
        exact h ▸ List.mem_cons_of_mem x (ih b hfh)
      · rw [if_neg hb] at h
        exact h ▸ List.mem_cons_self x xs

/-- The size-one sorted search on a non-empty list returns a hit. -/
theorem firstHit_of_ne_nil (better : Document → Document → Bool) (l : List Document)
    (h : l ≠ []) : ∃ d, firstHit better l = some d := by
  cases l with
  | nil => exact absurd rfl h
  | cons x xs => exact ⟨_, rfl⟩

/-- Every member of a list is bounded by its fold maximum. -/
theorem le_listMaxInt_of_mem (l : List Int) (x : Int) (h : x ∈ l) : x ≤ listMaxInt l := by
  induction l with
  | nil => exact absurd h (List.not_mem_nil x)
  | cons y ys ih =>
    rw [listMaxInt]
    cases ys with
    | nil =>
      simp only [List.isEmpty_nil, if_true]
      rcases List.mem_cons.1 h with rfl | hx
      · exact le_refl x
      · exact absurd hx (List.not_mem_nil x)
    | cons z t =>
      simp only [List.isEmpty_cons, if_false, Bool.false_eq_true]
      rcases List.mem_cons.1 h with rfl | hx
      · exact le_max_left _ _
      · exact le_trans (ih hx) (le_max_right _ _)

/-- The fold maximum of a non-empty list is one of its members. -/
theorem listMaxInt_mem (l : List Int) (h : l ≠ []) : listMaxInt l ∈ l := by
  induction l with
  | nil => exact absurd rfl h
  | cons y ys ih =>
    rw [listMaxInt]
    cases ys with
    | nil => simp
    | cons z t =>
      simp only [List.isEmpty_cons, if_false, Bool.false_eq_true]
      rcases le_total y (listMaxInt (z :: t)) with hle | hle
      · rw [max_eq_right hle]
        exact List.mem_cons_of_mem y (ih (by simp))
      · rw [max_eq_left hle]
        exact List.mem_cons_self y _

/-- The fold minimum of a list bounds each member from below. -/
theorem listMinInt_le_of_mem (l : List Int) (x : Int) (h : x ∈ l) : listMinInt l ≤ x := by
  induction l with
  | nil => exact absurd h (List.not_mem_nil x)
  | cons y ys ih =>
    rw [listMinInt]
    cases ys with
    | nil =>
      simp only [List.isEmpty_nil, if_true]
      rcases List.mem_cons.1 h with rfl | hx
      · exact le_refl x
      · exact absurd hx (List.not_mem_nil x)
    | cons z t =>
      simp only [List.isEmpty_cons, if_false, Bool.false_eq_true]
      rcases List.mem_cons.1 h with rfl | hx
      · exact min_le_left _ _
      · exact le_trans (min_le_right _ _) (ih hx)

/-- The fold minimum of a non-empty list is one of its members. -/
theorem listMinInt_mem (l : List Int) (h : l ≠ []) : listMinInt l ∈ l := by
  induction l with
  | nil => exact absurd rfl h
  | cons y ys ih =>
    rw [listMinInt]
    cases ys with
    | nil => simp
    | cons z t =>
      simp only [List.isEmpty_cons, if_false, Bool.false_eq_true]
      rcases le_total y (listMinInt (z :: t)) with hle | hle
      · rw [min_eq_left hle]
        exact List.mem_cons_self y _
      · rw [min_eq_right hle]
        exact List.mem_cons_of_mem y (ih (by simp))

/-- A member below all members is the fold minimum. -/
theorem listMinInt_eq (l : List Int) (m : Int) (hm : m ∈ l) (hle : ∀ b ∈ l, m ≤ b) :
    listMinInt l = m :=
  le_antisymm (listMinInt_le_of_mem l m hm)
    (hle _ (listMinInt_mem l (List.ne_nil_of_mem hm)))

/-- Unpacking the resolver's document filter. -/
theorem matchingDocs_spec (task metric : String) (variants : List String)
    (index : List Document) (d : Document) (h : d ∈ matchingDocs task metric variants index) :
    d ∈ index ∧ d.task = task ∧ d.metric = metric ∧ d.url.isSome = true := by
  obtain ⟨hmem, hp⟩ := List.mem_filter.1 h
  simp only [Bool.and_eq_true, decide_eq_true_eq] at hp
  exact ⟨hmem, hp.1.1.1, hp.1.1.2, hp.1.2⟩

/-- Every variant bucket key comes from a matching document. -/
theorem variantKeys_exists (docs : List Document) (maxv : Nat) (v : String)
    (h : v ∈ variantKeys docs maxv) : ∃ d ∈ docs, d.variant = v := by
  rw [variantKeys] at h
  have h1 := List.mem_of_mem_take h
  have h2 := (mem_sortByKey id v ((docs.map (·.variant)).dedup)).1 h1
  have h3 := List.mem_dedup.1 h2
  obtain ⟨d, hd, hdv⟩ := List.mem_map.1 h3
  exact ⟨d, hd, hdv⟩

/-- Every document of a variant bucket carries a payload reference, has
the bucket's variant, and matches the resolver query. -/
theorem variantDocs_spec (task metric : String) (variants : List String)
    (index : List Document) (v : String) (d : Document)
    (h : d ∈ variantDocs task metric variants index v) :
    d.url.isSome = true ∧ d.variant = v ∧ d ∈ matchingDocs task metric variants index := by
  obtain ⟨hmem, hp⟩ := List.mem_filter.1 h
  simp only [decide_eq_true_eq] at hp
  exact ⟨(matchingDocs_spec task metric variants index d hmem).2.2.2, hp, hmem⟩

/-- Membership in a variant bucket from a matching document of that
variant. -/
theorem mem_variantDocs (task metric : String) (variants : List String)
    (index : List Document) (v : String) (d : Document)
    (hd : d ∈ matchingDocs task metric variants index) (hdv : d.variant = v) :
    d ∈ variantDocs task metric variants index v := by
  rw [variantDocs]
  exact List.mem_filter.2 ⟨hd, by simp [hdv]⟩

/-- Refinement of the url sub-aggregation: reading the `max_iter` value of
the first url bucket under the ascending `max_iter` order equals the
smallest per-payload maximum iteration. -/
theorem min_iter_eq_spec (docs : List Document) (hne : docs ≠ [])
    (hurl : ∀ d ∈ docs, d.url.isSome = true) :
    ((sortByKey Prod.snd (urlBuckets docs)).head?.map Prod.snd).getD 0 = specMinIteration docs := by
  obtain ⟨d, hd⟩ := List.exists_mem_of_ne_nil docs hne
  obtain ⟨u, hu⟩ := Option.isSome_iff_exists.1 (hurl d hd)
  have huu : u ∈ urlsOf docs := by
    rw [urlsOf, List.mem_dedup]
    exact List.mem_filterMap.2 ⟨d, hd, hu⟩
  have hmm : (u, url_max_iter docs u) ∈ urlBuckets docs := by
    rw [urlBuckets]
    exact List.mem_map.2 ⟨u, huu, rfl⟩
  obtain ⟨mb, tb, hcons⟩ :=
    List.exists_cons_of_ne_nil (sortByKey_ne_nil Prod.snd _ (List.ne_nil_of_mem hmm))
  obtain ⟨hmem, hminp⟩ := sortByKey_head_min Prod.snd _ mb tb hcons
  rw [hcons]
  simp only [List.head?_cons, Option.map_some', Option.getD_some]
  rw [specMinIteration]
  refine (listMinInt_eq _ mb.2 ?_ ?_).symm
  · rw [urlBuckets] at hmem
    obtain ⟨u', hu', hval⟩ := List.mem_map.1 hmem
    exact List.mem_map.2 ⟨u', hu', by rw [← hval]⟩
  · intro b hb
    obtain ⟨u', hu', hval⟩ := List.mem_map.1 hb
    have hmm' : (u', url_max_iter docs u') ∈ urlBuckets docs := by
      rw [urlBuckets]
      exact List.mem_map.2 ⟨u', hu', rfl⟩
    have := hminp _ hmm'
    rw [← hval]
    exact this

/-- C1 (amended): for every variant bucket the resolver returns, the
resolved `min_iteration` equals the smallest value among the per-payload
maxima — group the bucket's matching documents by payload reference, take
the maximum iteration per payload, and take the minimum over those
maxima.  (In the recycling example with iterations 1 and 2 sharing one
url and iteration 3 on a new url, this value is 2 — the last iteration at
which the shared payload was current — not 3 as the claim stated, and not
1.) -/
theorem C1_min_iteration_matches_spec_formula (task metric : String) (variants : List String)
    (maxv : Nat) (index : List Document) (e : String × Int × Int)
    (he : e ∈ get_variant_iterations task metric variants maxv index) :
    e.2.1 = specMinIteration (variantDocs task metric variants index e.1) := by
  rw [get_variant_iterations] at he
  obtain ⟨v, hv, rfl⟩ := List.mem_map.1 he
  obtain ⟨d, hd, hdv⟩ := variantKeys_exists _ maxv v hv
  have hne : variantDocs task metric variants index v ≠ [] :=
    List.ne_nil_of_mem (mem_variantDocs task metric variants index v d hd hdv)
  have hurl : ∀ d' ∈ variantDocs task metric variants index v, d'.url.isSome = true :=
    fun d' hd' => (variantDocs_spec task metric variants index v d' hd').1
  have h1 : (get_variant_data task metric variants index v).1 = v := rfl
  have h2 : (get_variant_data task metric variants index v).2.1 =
      ((sortByKey Prod.snd (urlBuckets (variantDocs task metric variants index v))).head?.map
        Prod.snd).getD 0 := rfl
  rw [h1, h2]
  exact min_iter_eq_spec _ hne hurl

/-- Witness for C1 on the recycling scenario: the resolver's bucket for
variant `x` is in the output and its `min_iteration` matches the spec
formula. -/
theorem C1_min_iteration_witness :
    ("x", 2, 3) ∈ get_variant_iterations "t" "m" [] 10 c1Index ∧
    (("x", 2, 3) : String × Int × Int).2.1 =
      specMinIteration (variantDocs "t" "m" [] c1Index "x") :=
  ⟨by decide,
   C1_min_iteration_matches_spec_formula "t" "m" [] 10 c1Index ("x", 2, 3) (by decide)⟩

/-- Counterexample to C1 as stated: on the recycling scenario the
resolver's `min_iteration` for variant `x` is 2, not the claimed 3. -/
theorem C1_min_iteration_cex :
    get_variant_iterations "t" "m" [] 10 c1Index = [("x", 2, 3)] ∧ (2 : Int) ≠ 3 :=
  ⟨by decide, by decide⟩

/-- C4: for every variant bucket the resolver returns,
`min_iteration <= max_iteration` — the smallest per-payload maximum never
exceeds the overall maximum iteration of the bucket. -/
theorem C4_min_le_max (task metric : String) (variants : List String) (maxv : Nat)
    (index : List Document) (e : String × Int × Int)
    (he : e ∈ get_variant_iterations task metric variants maxv index) :
    e.2.1 ≤ e.2.2 := by
  rw [get_variant_iterations] at he
  obtain ⟨v, hv, rfl⟩ := List.mem_map.1 he
  obtain ⟨d0, hd0, hd0v⟩ := variantKeys_exists _ maxv v hv
  have hd0' : d0 ∈ variantDocs task metric variants index v :=
    mem_variantDocs task metric variants index v d0 hd0 hd0v
  have hne : variantDocs task metric variants index v ≠ [] := List.ne_nil_of_mem hd0'
  have hurl : ∀ d' ∈ variantDocs task metric variants index v, d'.url.isSome = true :=
    fun d' hd' => (variantDocs_spec task metric variants index v d' hd').1
  have h2 : (get_variant_data task metric variants index v).2.1 =
      ((sortByKey Prod.snd (urlBuckets (variantDocs task metric variants index v))).head?.map
        Prod.snd).getD 0 := rfl
  have h3 : (get_variant_data task metric variants index v).2.2 =
      listMaxInt ((variantDocs task metric variants index v).map (·.iter)) := rfl
  rw [h2, h3, min_iter_eq_spec _ hne hurl, specMinIteration]
  obtain ⟨u, hu⟩ := Option.isSome_iff_exists.1 (hurl d0 hd0')
  have huu : u ∈ urlsOf (variantDocs task metric variants index v) := by
    rw [urlsOf, List.mem_dedup]
    exact List.mem_filterMap.2 ⟨d0, hd0', hu⟩
  have step1 :
      listMinInt ((urlsOf (variantDocs task metric variants index v)).map
        (url_max_iter (variantDocs task metric variants index v))) ≤
      url_max_iter (variantDocs task metric variants index v) u :=
    listMinInt_le_of_mem _ _ (List.mem_map.2 ⟨u, huu, rfl⟩)
  have hd0f : d0 ∈ (variantDocs task metric variants index v).filter
      fun d' => decide (d'.url = some u) :=
    List.mem_filter.2 ⟨hd0', by simp [hu]⟩
  have hsubne :
      ((variantDocs task metric variants index v).filter
        (fun d' => decide (d'.url = some u))).map (·.iter) ≠ [] := by
    intro hc
    rw [List.map_eq_nil_iff] at hc
    rw [hc] at hd0f
    exact absurd hd0f (List.not_mem_nil d0)
  have step2 : url_max_iter (variantDocs task metric variants index v) u ≤
      listMaxInt ((variantDocs task metric variants index v).map (·.iter)) := by
    rw [url_max_iter]
    have hmem := listMaxInt_mem _ hsubne
    obtain ⟨d1, hd1, hd1i⟩ := List.mem_map.1 hmem
    have hd1' : d1 ∈ variantDocs task metric variants index v := (List.mem_filter.1 hd1).1
    rw [← hd1i]
    exact le_listMaxInt_of_mem _ _ (List.mem_map.2 ⟨d1, hd1', rfl⟩)
  exact le_trans step1 step2

/-- Witness for C4 on the recycling scenario. -/
theorem C4_min_le_max_witness :
    ("x", 2, 3) ∈ get_variant_iterations "t" "m" [] 10 c1Index ∧
    (("x", 2, 3) : String × Int × Int).2.1 ≤ (("x", 2, 3) : String × Int × Int).2.2 :=
  ⟨by decide, C4_min_le_max "t" "m" [] 10 c1Index ("x", 2, 3) (by decide)⟩

/-- Soundness of the same-iteration sibling search: a hit lies in the
index, matches the state's task, metric and iteration, carries a payload
reference, and belongs to a candidate variant state on the strict side of
the current variant whose window has opened. -/
theorem current_iter_sound (ne : Bool) (st : DebugSampleHistoryState) (index : List Document)
    (d : Document) (h : get_next_for_current_iteration ne st index = some d) :
    d ∈ index ∧ d.task = st.task ∧ d.metric = st.metric ∧ d.iter = st.iteration ∧
      d.url.isSome = true ∧
      ∃ v ∈ st.variant_states, v.name = d.variant ∧ v.min_iteration ≤ st.iteration ∧
        (if ne = true then v.name < st.variant else st.variant < v.name) := by
  cases ne with
  | false =>
    simp only [get_next_for_current_iteration, Bool.false_eq_true, if_false] at h ⊢
    split at h
    · exact absurd h (by simp)
    · have hd := firstHit_mem _ _ _ h
      obtain ⟨hdi, hp⟩ := List.mem_filter.1 hd
      simp only [Bool.and_eq_true, decide_eq_true_eq] at hp
      obtain ⟨⟨⟨⟨ht, hm⟩, hmem⟩, hit⟩, hu⟩ := hp
      obtain ⟨v, hvf, hvn⟩ := List.mem_map.1 hmem
      obtain ⟨hv, hvp⟩ := List.mem_filter.1 hvf
      simp only [Bool.and_eq_true, decide_eq_true_eq] at hvp
      exact ⟨hdi, ht, hm, hit, hu, v, hv, hvn, hvp.2, hvp.1⟩
  | true =>
    simp only [get_next_for_current_iteration, if_true] at h ⊢
    split at h
    · exact absurd h (by simp)
    · have hd := firstHit_mem _ _ _ h
      obtain ⟨hdi, hp⟩ := List.mem_filter.1 hd
      simp only [Bool.and_eq_true, decide_eq_true_eq] at hp
      obtain ⟨⟨⟨⟨ht, hm⟩, hmem⟩, hit⟩, hu⟩ := hp
      obtain ⟨v, hvf, hvn⟩ := List.mem_map.1 hmem
      obtain ⟨hv, hvp⟩ := List.mem_filter.1 hvf
      simp only [Bool.and_eq_true, decide_eq_true_eq] at hvp
      exact ⟨hdi, ht, hm, hit, hu, v, hv, hvn, hvp.2, hvp.1⟩

/-- Completeness of the same-iteration sibling search: when the index
holds a payload-bearing document of the current iteration for a candidate
variant, the search returns a hit. -/
theorem current_iter_complete (ne : Bool) (st : DebugSampleHistoryState) (index : List Document)
    (d : Document) (v : VariantState) (hdi : d ∈ index) (hv : v ∈ st.variant_states)
    (hvn : v.name = d.variant)
    (hcmp : if ne = true then v.name < st.variant else st.variant < v.name)
    (hmin : v.min_iteration ≤ st.iteration) (ht : d.task = st.task) (hm : d.metric = st.metric)
    (hit : d.iter = st.iteration) (hu : d.url.isSome = true) :
    ∃ e, get_next_for_current_iteration ne st index = some e := by
  cases ne with
  | false =>
    simp only [Bool.false_eq_true, if_false] at hcmp
    simp only [get_next_for_current_iteration, Bool.false_eq_true, if_false]
    have hvf : v ∈ st.variant_states.filter
        (fun w => decide (st.variant < w.name) && decide (w.min_iteration ≤ st.iteration)) := by
      refine List.mem_filter.2 ⟨hv, ?_⟩
      simp only [Bool.and_eq_true, decide_eq_true_eq]
      exact ⟨hcmp, hmin⟩
    have hne : (st.variant_states.filter
        (fun w => decide (st.variant < w.name) && decide (w.min_iteration ≤ st.iteration))).isEmpty
          = false := by
      cases hl : st.variant_states.filter
          (fun w => decide (st.variant < w.name) && decide (w.min_iteration ≤ st.iteration)) with
      | nil => rw [hl] at hvf; exact absurd hvf (List.not_mem_nil v)
      | cons a l => simp
    rw [hne]
    simp only [Bool.false_eq_true, if_false]
    apply firstHit_of_ne_nil
    apply List.ne_nil_of_mem (a := d)
    refine List.mem_filter.2 ⟨hdi, ?_⟩
    simp only [Bool.and_eq_true, decide_eq_true_eq]
    exact ⟨⟨⟨⟨ht, hm⟩, List.mem_map.2 ⟨v, hvf, hvn⟩⟩, hit⟩, hu⟩
  | true =>
    simp only [if_true] at hcmp
    simp only [get_next_for_current_iteration, if_true]
    have hvf : v ∈ st.variant_states.filter
        (fun w => decide (w.name < st.variant) && decide (w.min_iteration ≤ st.iteration)) := by
      refine List.mem_filter.2 ⟨hv, ?_⟩
      simp only [Bool.and_eq_true, decide_eq_true_eq]
      exact ⟨hcmp, hmin⟩
    have hne : (st.variant_states.filter
        (fun w => decide (w.name < st.variant) && decide (w.min_iteration ≤ st.iteration))).isEmpty
          = false := by
      cases hl : st.variant_states.filter
          (fun w => decide (w.name < st.variant) && decide (w.min_iteration ≤ st.iteration)) with
      | nil => rw [hl] at hvf; exact absurd hvf (List.not_mem_nil v)
      | cons a l => simp
    rw [hne]
    simp only [Bool.false_eq_true, if_false]
    apply firstHit_of_ne_nil
    apply List.ne_nil_of_mem (a := d)
    refine List.mem_filter.2 ⟨hdi, ?_⟩
    simp only [Bool.and_eq_true, decide_eq_true_eq]
    exact ⟨⟨⟨⟨ht, hm⟩, List.mem_map.2 ⟨v, hvf, hvn⟩⟩, hit⟩, hu⟩

/-- C2: with variants `a` and `b` both valid at iteration 5, advancing
forward from `a` at iteration 5 selects a document of variant `b` at
iteration 5 through the same-iteration phase; the two-phase composition
returns exactly that document (the cross-iteration phase never runs), and
`get_next_debug_image` returns it with variant `b`'s bounds. -/
theorem C2_phase1_tie_break
    (task state_id : String) (st : DebugSampleHistoryState) (index : List Document)
    (aSt bSt : VariantState) (d : Document) (env : CacheEnv)
    (hvs : st.variant_states = [aSt, bSt]) (han : aSt.name = "a") (hbn : bSt.name = "b")
    (hv : st.variant = "a") (hi : st.iteration = 5) (hmb : bSt.min_iteration ≤ 5)
    (hd : d ∈ index) (hdt : d.task = st.task) (hdm : d.metric = st.metric)
    (hdv : d.variant = "b") (hdi : d.iter = 5) (hdu : d.url.isSome = true)
    (hg : get_state env state_id = some st) (ht : st.task = task) :
    ∃ e, get_next_for_current_iteration false st index = some e ∧ e.variant = "b" ∧
      e.iter = 5 ∧
      (get_next_for_current_iteration false st index).orElse
        (fun _ => get_next_for_another_iteration false st index) = some e ∧
      ∃ env', get_next_debug_image task state_id false index env =
        .ok ({ scroll_id := some state_id, event := some e,
               min_iteration := some bSt.min_iteration,
               max_iteration := some bSt.max_iteration }, env') := by
  obtain ⟨e, he⟩ := current_iter_complete false st index d bSt hd
    (by rw [hvs]; simp) (by rw [hbn, hdv])
    (by simp only [Bool.false_eq_true, if_false]; rw [hv, hbn]; simp; decide)
    (by rw [hi]; exact hmb) hdt hdm (by rw [hdi, hi]) hdu
  obtain ⟨hei, het, hem, heit, heu, v', hv', hvn', hmin', hcmp'⟩ :=
    current_iter_sound false st index e he
  simp only [Bool.false_eq_true, if_false] at hcmp'
  have hevb : e.variant = "b" := by
    rw [hvs] at hv'
    rcases List.mem_cons.1 hv' with rfl | hv'
    · rw [han, hv] at hcmp'
      exact absurd hcmp' (lt_irrefl _)
    · rcases List.mem_cons.1 hv' with rfl | hv'
      · rw [← hvn', hbn]
      · exact absurd hv' (List.not_mem_nil v')
  have heit5 : e.iter = 5 := by rw [heit, hi]
  have horelse : (get_next_for_current_iteration false st index).orElse
      (fun _ => get_next_for_another_iteration false st index) = some e := by
    rw [he]; rfl
  refine ⟨e, he, hevb, heit5, horelse, ?_⟩
  have hfind : st.variant_states.find? (fun s => decide (s.name = e.variant)) = some bSt := by
    rw [hvs, hevb]
    rw [List.find?_cons_of_neg _ (by simp [han]), List.find?_cons_of_pos _ (by simp [hbn])]
  have hfill : (fill_res_and_update_state e ({ scroll_id := some state_id } :
      DebugSampleHistoryResult) st).1 =
      { scroll_id := some state_id, event := some e,
        min_iteration := some bSt.min_iteration, max_iteration := some bSt.max_iteration } := by
    rw [fill_res_and_update_state]
    simp only []
    rw [hfind]
  have hne_idx : check_empty_data index = false := by
    rw [check_empty_data]
    cases index with
    | nil => exact absurd hd (List.not_mem_nil d)
    | cons a l => simp
  refine ⟨set_state env (fill_res_and_update_state e
    ({ scroll_id := some state_id } : DebugSampleHistoryResult) st).2, ?_⟩
  rw [get_next_debug_image]
  simp only [hg]
  rw [if_neg (fun hn => hn ht), hne_idx]
  simp only [Bool.false_eq_true, if_false, horelse]
  rw [hfill]

/-- C3: cross-iteration phase.  Soundness — a hit matches task and
metric, carries a payload reference, lies strictly on the requested side
of the current iteration, and belongs to some candidate variant state at
or above that variant's `min_iteration` (the backward candidates
additionally satisfying `min_iteration < state.iteration`).
Completeness — whenever the index holds a document reachable through a
candidate variant under exactly those constraints, the phase returns a
hit, backward candidates being exactly the variant states with
`min_iteration < state.iteration` and forward candidates all variant
states. -/
theorem C3_cross_iteration_window (ne : Bool) (st : DebugSampleHistoryState)
    (index : List Document) :
    (∀ d, get_next_for_another_iteration ne st index = some d →
      d.task = st.task ∧ d.metric = st.metric ∧ d.url.isSome = true ∧
      (∃ v ∈ st.variant_states, v.name = d.variant ∧ v.min_iteration ≤ d.iter ∧
        (ne = true → v.min_iteration < st.iteration)) ∧
      (if ne = true then d.iter < st.iteration else st.iteration < d.iter)) ∧
    (∀ d v, d ∈ index → v ∈ st.variant_states → v.name = d.variant →
      v.min_iteration ≤ d.iter → d.url.isSome = true → d.task = st.task →
      d.metric = st.metric → (ne = true → v.min_iteration < st.iteration) →
      (if ne = true then d.iter < st.iteration else st.iteration < d.iter) →
      ∃ e, get_next_for_another_iteration ne st index = some e) := by
  constructor
  · intro d h
    cases ne with
    | false =>
      simp only [get_next_for_another_iteration, Bool.false_eq_true, if_false] at h ⊢
      split at h
      · exact absurd h (by simp)
      · have hd := firstHit_mem _ _ _ h
        obtain ⟨hdi, hp⟩ := List.mem_filter.1 hd
        simp only [Bool.and_eq_true, decide_eq_true_eq, List.any_eq_true] at hp
        obtain ⟨⟨⟨⟨ht, hm⟩, hu⟩, ⟨v, hv, hvn, hvm⟩⟩, hit⟩ := hp
        exact ⟨ht, hm, hu, ⟨v, hv, hvn, hvm, fun hc => absurd hc (by simp)⟩, hit⟩
    | true =>
      simp only [get_next_for_another_iteration, if_true] at h ⊢
      split at h
      · exact absurd h (by simp)
      · have hd := firstHit_mem _ _ _ h
        obtain ⟨hdi, hp⟩ := List.mem_filter.1 hd
        simp only [Bool.and_eq_true, decide_eq_true_eq, List.any_eq_true] at hp
        obtain ⟨⟨⟨⟨ht, hm⟩, hu⟩, ⟨v, hvf, hvn, hvm⟩⟩, hit⟩ := hp
        obtain ⟨hv, hvlt⟩ := List.mem_filter.1 hvf
        exact ⟨ht, hm, hu,
          ⟨v, hv, hvn, hvm, fun _ => of_decide_eq_true hvlt⟩, hit⟩
  · intro d v hdi hv hvn hvm hu ht hm hlt hit
    cases ne with
    | false =>
      simp only [Bool.false_eq_true, if_false] at hit
      simp only [get_next_for_another_iteration, Bool.false_eq_true, if_false]
      have hvne : st.variant_states.isEmpty = false := by
        cases hl : st.variant_states with
        | nil => rw [hl] at hv; exact absurd hv (List.not_mem_nil v)
        | cons a l => simp
      rw [hvne]
      simp only [Bool.false_eq_true, if_false]
      apply firstHit_of_ne_nil
      apply List.ne_nil_of_mem (a := d)
      refine List.mem_filter.2 ⟨hdi, ?_⟩
      simp only [Bool.and_eq_true, decide_eq_true_eq, List.any_eq_true]
      exact ⟨⟨⟨⟨ht, hm⟩, hu⟩, ⟨v, hv, hvn, hvm⟩⟩, hit⟩
    | true =>
      simp only [if_true] at hit
      simp only [get_next_for_another_iteration, if_true]
      have hvf : v ∈ st.variant_states.filter
          (fun w => decide (w.min_iteration < st.iteration)) :=
        List.mem_filter.2 ⟨hv, decide_eq_true (hlt rfl)⟩
      have hvne : (st.variant_states.filter
          (fun w => decide (w.min_iteration < st.iteration))).isEmpty = false := by
        cases hl : st.variant_states.filter
            (fun w => decide (w.min_iteration < st.iteration)) with
        | nil => rw [hl] at hvf; exact absurd hvf (List.not_mem_nil v)
        | cons a l => simp
      rw [hvne]
      simp only [Bool.false_eq_true, if_false]
      apply firstHit_of_ne_nil
      apply List.ne_nil_of_mem (a := d)
      refine List.mem_filter.2 ⟨hdi, ?_⟩
      simp only [Bool.and_eq_true, decide_eq_true_eq, List.any_eq_true]
      exact ⟨⟨⟨⟨ht, hm⟩, hu⟩, ⟨v, hvf, hvn, hvm⟩⟩, hit⟩

/-- C6: when both search phases find nothing, `get_next_debug_image`
returns a result with an empty event and the cursor id it was given, and
leaves the cache environment unchanged — the persisted state is not
written back. -/
theorem C6_advance_miss_preserves_state (task state_id : String) (ne : Bool)
    (index : List Document) (env : CacheEnv) (st : DebugSampleHistoryState)
    (hg : get_state env state_id = some st) (ht : st.task = task)
    (h1 : get_next_for_current_iteration ne st index = none)
    (h2 : get_next_for_another_iteration ne st index = none) :
    get_next_debug_image task state_id ne index env =
      .ok ({ scroll_id := some state_id, event := none,
             min_iteration := none, max_iteration := none }, env) := by
  rw [get_next_debug_image]
  simp only [hg]
  rw [if_neg (fun hn => hn ht)]
  cases hemp : check_empty_data index with
  | true => simp only [hemp, if_true]
  | false =>
    simp only [hemp, Bool.false_eq_true, if_false]
    have ho : (get_next_for_current_iteration ne st index).orElse
        (fun _ => get_next_for_another_iteration ne st index) = none := by
      rw [h1, h2]; rfl
    simp only [ho]

/-- Witness for C6: on a state with no variant states both phases return
nothing and the advance echoes the cursor id without touching the
cache. -/
theorem C6_advance_miss_witness :
    get_next_debug_image "t" "s1" false c2Index c6Env =
      .ok ({ scroll_id := some "s1", event := none,
             min_iteration := none, max_iteration := none }, c6Env) :=
  C6_advance_miss_preserves_state "t" "s1" false c2Index c6Env c6St
    (by decide) rfl (by decide) (by decide)

/-- C7: `get_next_debug_image` raises `InvalidScrollId` exactly when the
cursor id is absent from the cache store or the cached state's task
differs from the task argument; when the state exists and the tasks
match, the operation returns a result instead of raising. -/
theorem C7_invalid_cursor_iff (task state_id : String) (ne : Bool) (index : List Document)
    (env : CacheEnv) :
    ((∃ e, get_next_debug_image task state_id ne index env = .error e) ↔
      (get_state env state_id = none ∨
        ∃ st, get_state env state_id = some st ∧ st.task ≠ task)) ∧
    (∀ st, get_state env state_id = some st → st.task = task →
      ∃ r env', get_next_debug_image task state_id ne index env = .ok (r, env')) := by
  have hok : ∀ st, get_state env state_id = some st → st.task = task →
      ∃ r env', get_next_debug_image task state_id ne index env = .ok (r, env') := by
    intro st hg ht
    rw [get_next_debug_image]
    simp only [hg]
    rw [if_neg (fun hn => hn ht)]
    cases hemp : check_empty_data index with
    | true =>
      simp only [hemp, if_true]
      exact ⟨_, _, rfl⟩
    | false =>
      simp only [hemp, Bool.false_eq_true, if_false]
      cases ho : (get_next_for_current_iteration ne st index).orElse
          (fun _ => get_next_for_another_iteration ne st index) with
      | none => simp only [ho]; exact ⟨_, _, rfl⟩
      | some image => simp only [ho]; exact ⟨_, _, rfl⟩
  refine ⟨⟨?_, ?_⟩, hok⟩
  · rintro ⟨e, he⟩
    cases hg : get_state env state_id with
    | none => exact Or.inl rfl
    | some st =>
      refine Or.inr ⟨st, rfl, ?_⟩
      intro ht
      obtain ⟨r, env', hr⟩ := hok st hg ht
      rw [hr] at he
      exact absurd he (by simp)
  · intro h
    rcases h with hg | ⟨st, hg, ht⟩
    · refine ⟨.invalidScrollId state_id, ?_⟩
      rw [get_next_debug_image]
      simp only [hg]
    · refine ⟨.invalidScrollId state_id, ?_⟩
      rw [get_next_debug_image]
      simp only [hg]
      rw [if_pos ht]

/-- Witness for C7: an empty cache makes the advance raise, and a stored
state with a matching task makes it return a result. -/
theorem C7_invalid_cursor_witness :
    (∃ e, get_next_debug_image "t" "s1" false c2Index (⟨[], []⟩ : CacheEnv) = .error e) ∧
    (∃ r env', get_next_debug_image "t" "s1" false c2Index c6Env = .ok (r, env')) :=
  ⟨(C7_invalid_cursor_iff "t" "s1" false c2Index ⟨[], []⟩).1.mpr (Or.inl (by decide)),
   (C7_invalid_cursor_iff "t" "s1" false c2Index c6Env).2 c6St (by decide) rfl⟩

/-- C9 (amended): when the selected document's variant is absent from
`variant_states`, `_fill_res_and_update_state` leaves the result's
iteration bounds untouched and attaches the document, and no warning is
produced — the state's `warning` field is left unchanged (the source
never writes it), while variant and iteration are still updated. -/
theorem C9_absent_variant_no_warning (img : Document) (res : DebugSampleHistoryResult)
    (st : DebugSampleHistoryState)
    (hfind : st.variant_states.find? (fun s => decide (s.name = img.variant)) = none) :
    (fill_res_and_update_state img res st).1.min_iteration = res.min_iteration ∧
    (fill_res_and_update_state img res st).1.max_iteration = res.max_iteration ∧
    (fill_res_and_update_state img res st).1.event = some img ∧
    (fill_res_and_update_state img res st).2.warning = st.warning ∧
    (fill_res_and_update_state img res st).2.variant = img.variant ∧
    (fill_res_and_update_state img res st).2.iteration = img.iter := by
  have hfill : fill_res_and_update_state img res st =
      ({ res with event := some img },
       { st with variant := img.variant, iteration := img.iter }) := by
    simp only [fill_res_and_update_state, hfind]
  rw [hfill]
  exact ⟨rfl, rfl, rfl, rfl, rfl, rfl⟩

/-- Witness for C9 on the concrete absent-variant scenario. -/
theorem C9_absent_variant_witness :
    (fill_res_and_update_state c9Img ({} : DebugSampleHistoryResult) c9St).1.min_iteration = none ∧
    (fill_res_and_update_state c9Img ({} : DebugSampleHistoryResult) c9St).1.max_iteration = none ∧
    (fill_res_and_update_state c9Img ({} : DebugSampleHistoryResult) c9St).1.event = some c9Img ∧
    (fill_res_and_update_state c9Img ({} : DebugSampleHistoryResult) c9St).2.warning = none ∧
    (fill_res_and_update_state c9Img ({} : DebugSampleHistoryResult) c9St).2.variant = "zzz" ∧
    (fill_res_and_update_state c9Img ({} : DebugSampleHistoryResult) c9St).2.iteration = 7 :=
  C9_absent_variant_no_warning c9Img ({} : DebugSampleHistoryResult) c9St (by decide)

/-- Counterexample to C9 as stated: with the document's variant absent
from the state, the bounds are indeed left empty, but no warning is
produced — the state's `warning` field stays `none` rather than being
set. -/
theorem C9_no_warning_cex :
    (fill_res_and_update_state c9Img ({} : DebugSampleHistoryResult) c9St).1.min_iteration = none ∧
    (fill_res_and_update_state c9Img ({} : DebugSampleHistoryResult) c9St).1.max_iteration = none ∧
    ¬ (fill_res_and_update_state c9Img ({} : DebugSampleHistoryResult) c9St).2.warning ≠ none := by
  refine ⟨?_, ?_, ?_⟩ <;> decide

/-- C10: on an empty index, `get_debug_image_for_variant` returns an
entirely empty result — no scroll id even when a cursor id was supplied,
no event, no bounds — and the cache environment is untouched: no cursor
state is created, validated, mutated or saved, and no id is minted. -/
theorem C10_jump_empty_index (task metric variant : String) (iteration : Option Int)
    (refresh : Bool) (state_id : Option String) (maxv : Nat) (index : List Document)
    (env : CacheEnv) (h : check_empty_data index = true) :
    get_debug_image_for_variant task metric variant iteration refresh state_id maxv index env =
      .ok ({ scroll_id := none, event := none,
             min_iteration := none, max_iteration := none }, env) := by
  rw [get_debug_image_for_variant.eq_def, h]
  simp only [if_true]

/-- Witness for C10: the empty index short-circuits even when a cursor id
is supplied and the cache holds unrelated state. -/
theorem C10_jump_empty_index_witness :
    get_debug_image_for_variant "t2" "m2" "v" (some 3) true (some "s1") 10 [] c6Env =
      .ok ({ scroll_id := none, event := none,
             min_iteration := none, max_iteration := none }, c6Env) :=
  C10_jump_empty_index "t2" "m2" "v" (some 3) true (some "s1") 10 [] c6Env (by decide)

/-- Witness for C2 on the concrete tie-break scenario: navigating forward
from `a` at iteration 5 picks `b` at iteration 5 even though `b` also has
a document at iteration 8. -/
theorem C2_phase1_tie_break_witness :
    ∃ e, get_next_for_current_iteration false c2St c2Index = some e ∧ e.variant = "b" ∧
      e.iter = 5 ∧
      (get_next_for_current_iteration false c2St c2Index).orElse
        (fun _ => get_next_for_another_iteration false c2St c2Index) = some e ∧
      ∃ env', get_next_debug_image "t" "s1" false c2Index c2Env =
        .ok ({ scroll_id := some "s1", event := some e,
               min_iteration := some (0 : Int), max_iteration := some (9 : Int) }, env') :=
  C2_phase1_tie_break "t" "s1" c2St c2Index ⟨"a", 0, 9⟩ ⟨"b", 0, 9⟩
    ⟨"t", "m", "b", 5, some "u5"⟩ c2Env rfl rfl rfl rfl rfl (by decide) (by decide)
    rfl rfl rfl rfl rfl (by decide) rfl

/-- Witness for C3 on the concrete cross-iteration scenario: variant `b`
is a forward candidate and its document at iteration 7 is found. -/
theorem C3_cross_iteration_witness :
    ∃ e, get_next_for_another_iteration false c3St [c3Doc] = some e :=
  (C3_cross_iteration_window false c3St [c3Doc]).2 c3Doc ⟨"b", 3, 9⟩
    (by decide) (by decide) rfl (by decide) rfl rfl rfl
    (by intro hc; exact absurd hc (by simp))
    (by simp only [Bool.false_eq_true, if_false]; decide)

/-- Bucket keys of the resolver are pairwise sorted ascending. -/
theorem resolver_names_sorted (task metric : String) (variants : List String) (maxv : Nat)
    (index : List Document) :
    List.Pairwise (fun a b => a ≤ b)
      ((get_variant_iterations task metric variants maxv index).map (·.1)) := by
  rw [get_variant_iterations, List.map_map]
  rw [show ((fun (e : String × Int × Int) => e.1) ∘
      get_variant_data task metric variants index) = fun v => v from rfl]
  rw [show (fun (v : String) => v) = id from rfl, List.map_id]
  rw [variantKeys]
  exact List.Pairwise.sublist (List.take_sublist _ _) (pairwise_sortByKey id _)

/-- The rebuilt variant states of `_reset_variant_states` are sorted
ascending by name. -/
theorem reset_sorted (maxv : Nat) (index : List Document) (st : DebugSampleHistoryState) :
    sortedByName (reset_variant_states maxv index st).variant_states := by
  show List.Pairwise (fun a b => a.name ≤ b.name)
    ((get_variant_iterations st.task st.metric [] maxv index).map
      fun t => (⟨t.1, t.2.1, t.2.2⟩ : VariantState))
  rw [List.pairwise_map]
  have h := resolver_names_sorted st.task st.metric [] maxv index
  rw [List.pairwise_map] at h
  exact h

/-- `_fill_res_and_update_state` keeps the state's id, task, metric and
variant states. -/
theorem fill_preserves (img : Document) (res : DebugSampleHistoryResult)
    (st : DebugSampleHistoryState) :
    (fill_res_and_update_state img res st).2.id = st.id ∧
    (fill_res_and_update_state img res st).2.task = st.task ∧
    (fill_res_and_update_state img res st).2.metric = st.metric ∧
    (fill_res_and_update_state img res st).2.variant_states = st.variant_states := by
  refine ⟨?_, ?_, ?_, ?_⟩ <;>
    · simp only [fill_res_and_update_state]
      split <;> rfl

/-- The result half of `_fill_res_and_update_state` depends on the state
only through its variant states. -/
theorem fill_fst_congr (img : Document) (res : DebugSampleHistoryResult)
    (s1 s2 : DebugSampleHistoryState) (hvs : s1.variant_states = s2.variant_states) :
    (fill_res_and_update_state img res s1).1 = (fill_res_and_update_state img res s2).1 := by
  simp only [fill_res_and_update_state]
  rw [hvs]
  cases hfind : s2.variant_states.find? (fun s => decide (s.name = img.variant)) with
  | none => rfl
  | some var_state => rfl

/-- A state read back from the cache belongs to some cache entry. -/
theorem get_state_mem (env : CacheEnv) (sid : String) (st : DebugSampleHistoryState)
    (h : get_state env sid = some st) : ∃ k, (k, st) ∈ env.cache := by
  rw [get_state] at h
  cases hf : env.cache.find? (fun p => decide (p.1 = sid)) with
  | none => rw [hf] at h; exact absurd h (by simp)
  | some p =>
    rw [hf] at h
    simp only [Option.map_some', Option.some.injEq] at h
    have hm := List.mem_of_find?_eq_some hf
    cases p with
    | mk k s =>
      simp only at h
      exact ⟨k, h ▸ hm⟩

/-- Saving a sorted state into a sorted cache keeps the cache sorted. -/
theorem cacheSorted_set (env : CacheEnv) (st : DebugSampleHistoryState)
    (henv : cacheSorted env) (hst : sortedByName st.variant_states) :
    cacheSorted (set_state env st) := by
  intro p hp
  rw [set_state] at hp
  simp only [List.mem_cons] at hp
  rcases hp with rfl | hp
  · exact hst
  · exact henv p (List.mem_of_mem_filter hp)

/-- A state read from a sorted cache is sorted. -/
theorem cacheSorted_get (env : CacheEnv) (sid : String) (st : DebugSampleHistoryState)
    (henv : cacheSorted env) (h : get_state env sid = some st) :
    sortedByName st.variant_states := by
  obtain ⟨k, hk⟩ := get_state_mem env sid st h
  exact henv (k, st) hk

/-- Minting an id leaves the cache contents unchanged. -/
theorem cacheSorted_mint (env : CacheEnv) (henv : cacheSorted env) :
    cacheSorted (mint_id env).2 :=
  fun p hp => henv p hp

/-- The cache half of `jump_body` always saves one state, and that state
keeps the id, task, metric and variant states of the state the body was
given. -/
theorem jump_body_saved (task metric variant : String) (iteration : Option Int)
    (index : List Document) (env : CacheEnv) (state : DebugSampleHistoryState) :
    ∃ s, (jump_body task metric variant iteration index env state).2 = set_state env s ∧
      s.id = state.id ∧ s.task = state.task ∧ s.metric = state.metric ∧
      s.variant_states = state.variant_states := by
  simp only [jump_body]
  split
  · exact ⟨state, rfl, rfl, rfl, rfl, rfl⟩
  · rename_i var_state hfind
    split
    · exact ⟨state, rfl, rfl, rfl, rfl, rfl⟩
    · rename_i image hfh
      obtain ⟨h1, h2, h3, h4⟩ := fill_preserves image
        { scroll_id := some state.id,
          min_iteration := some var_state.min_iteration,
          max_iteration := some var_state.max_iteration } state
      exact ⟨_, rfl, h1, h2, h3, h4⟩

/-- The get-or-create transaction and body of the jump operation keep
every cached state's variant states sorted. -/
theorem jump_core_sorted (task metric variant : String) (iteration : Option Int)
    (refresh : Bool) (maxv : Nat) (index : List Document) (envx : CacheEnv)
    (the_id : String) (r : DebugSampleHistoryResult) (env' : CacheEnv)
    (henv : cacheSorted envx)
    (hrun : (match get_state envx the_id with
      | some state0 =>
        if state0.task ≠ task ∨ state0.metric ≠ metric then
          Except.error (ApiError.invalidScrollId the_id)
        else
          Except.ok (jump_body task metric variant iteration index envx
            (if refresh then reset_variant_states maxv index state0 else state0))
      | none =>
        Except.ok (jump_body task metric variant iteration index envx
          (reset_variant_states maxv index (new_state the_id task metric)))) = .ok (r, env')) :
    cacheSorted env' := by
  cases hg : get_state envx the_id with
  | none =>
    rw [hg] at hrun
    have hrun' : (Except.ok (jump_body task metric variant iteration index envx
        (reset_variant_states maxv index (new_state the_id task metric))) :
        Except ApiError (DebugSampleHistoryResult × CacheEnv)) = .ok (r, env') := hrun
    simp only [Except.ok.injEq] at hrun'
    obtain ⟨s, hs2, _, _, _, hsvs⟩ := jump_body_saved task metric variant iteration index envx
      (reset_variant_states maxv index (new_state the_id task metric))
    have henv2 : set_state envx s = env' := by rw [← hs2, hrun']
    rw [← henv2]
    apply cacheSorted_set envx s henv
    rw [hsvs]
    exact reset_sorted maxv index (new_state the_id task metric)
  | some state0 =>
    rw [hg] at hrun
    have hrun' : (if state0.task ≠ task ∨ state0.metric ≠ metric then
        (Except.error (ApiError.invalidScrollId the_id) :
          Except ApiError (DebugSampleHistoryResult × CacheEnv))
      else
        Except.ok (jump_body task metric variant iteration index envx
          (if refresh then reset_variant_states maxv index state0 else state0)))
        = .ok (r, env') := hrun
    by_cases hvv : state0.task ≠ task ∨ state0.metric ≠ metric
    · rw [if_pos hvv] at hrun'
      exact absurd hrun' (by simp)
    · rw [if_neg hvv] at hrun'
      simp only [Except.ok.injEq] at hrun'
      obtain ⟨s, hs2, _, _, _, hsvs⟩ := jump_body_saved task metric variant iteration index envx
        (if refresh then reset_variant_states maxv index state0 else state0)
      have henv2 : set_state envx s = env' := by rw [← hs2, hrun']
      rw [← henv2]
      apply cacheSorted_set envx s henv
      rw [hsvs]
      cases refresh with
      | true =>
        simp only [if_true]
        exact reset_sorted maxv index state0
      | false =>
        simp only [Bool.false_eq_true, if_false]
        exact cacheSorted_get envx the_id state0 henv hg

/-- C5: `variant_states` is always sorted ascending by variant name —
the resolver emits buckets ordered ascending by key, the rebuilt variant
states preserve that order, `_fill_res_and_update_state` leaves
`variant_states` untouched, and both public operations keep every cached
state's variant states sorted. -/
theorem C5_variant_states_sorted :
    (∀ task metric variants maxv index,
      List.Pairwise (fun (a b : String × Int × Int) => a.1 ≤ b.1)
        (get_variant_iterations task metric variants maxv index)) ∧
    (∀ maxv index st, sortedByName (reset_variant_states maxv index st).variant_states) ∧
    (∀ img res st,
      (fill_res_and_update_state img res st).2.variant_states = st.variant_states) ∧
    (∀ task state_id ne index env r env', cacheSorted env →
      get_next_debug_image task state_id ne index env = .ok (r, env') → cacheSorted env') ∧
    (∀ task metric variant iteration refresh state_id maxv index env r env', cacheSorted env →
      get_debug_image_for_variant task metric variant iteration refresh state_id maxv index env
        = .ok (r, env') → cacheSorted env') := by
  refine ⟨?_, ?_, ?_, ?_, ?_⟩
  · intro task metric variants maxv index
    have h := resolver_names_sorted task metric variants maxv index
    rwa [List.pairwise_map] at h
  · exact fun maxv index st => reset_sorted maxv index st
  · exact fun img res st => (fill_preserves img res st).2.2.2
  · intro task state_id ne index env r env' henv hrun
    simp only [get_next_debug_image] at hrun
    cases hg : get_state env state_id with
    | none => rw [hg] at hrun; exact absurd hrun (by simp)
    | some st =>
      rw [hg] at hrun
      have hrun' : (if st.task ≠ task then
          (Except.error (ApiError.invalidScrollId state_id) :
            Except ApiError (DebugSampleHistoryResult × CacheEnv))
        else if check_empty_data index then
          Except.ok ({ scroll_id := some state_id }, env)
        else
          match (get_next_for_current_iteration ne st index).orElse
              (fun _ => get_next_for_another_iteration ne st index) with
          | none => Except.ok ({ scroll_id := some state_id }, env)
          | some image =>
            Except.ok ((fill_res_and_update_state image { scroll_id := some state_id } st).1,
              set_state env
                (fill_res_and_update_state image { scroll_id := some state_id } st).2))
          = .ok (r, env') := hrun
      by_cases htk : st.task = task
      · rw [if_neg (fun hn => hn htk)] at hrun'
        cases hemp : check_empty_data index with
        | true =>
          rw [hemp] at hrun'
          simp only [if_true, Except.ok.injEq, Prod.mk.injEq] at hrun'
          rw [← hrun'.2]
          exact henv
        | false =>
          rw [hemp] at hrun'
          simp only [Bool.false_eq_true, if_false] at hrun'
          cases ho : (get_next_for_current_iteration ne st index).orElse
              (fun _ => get_next_for_another_iteration ne st index) with
          | none =>
            rw [ho] at hrun'
            simp only [Except.ok.injEq, Prod.mk.injEq] at hrun'
            rw [← hrun'.2]
            exact henv
          | some image =>
            rw [ho] at hrun'
            simp only [Except.ok.injEq, Prod.mk.injEq] at hrun'
            rw [← hrun'.2]
            apply cacheSorted_set env _ henv
            rw [(fill_preserves image { scroll_id := some state_id } st).2.2.2]
            exact cacheSorted_get env state_id st henv hg
      · rw [if_pos htk] at hrun'
        exact absurd hrun' (by simp)
  · intro task metric variant iteration refresh state_id maxv index env r env' henv hrun
    rw [get_debug_image_for_variant.eq_def] at hrun
    cases hemp : check_empty_data index with
    | true =>
      rw [hemp] at hrun
      simp only [if_true, Except.ok.injEq, Prod.mk.injEq] at hrun
      rw [← hrun.2]
      exact henv
    | false =>
      rw [hemp] at hrun
      simp only [Bool.false_eq_true, if_false] at hrun
      cases state_id with
      | some i =>
        exact jump_core_sorted task metric variant iteration refresh maxv index env i
          r env' henv hrun
      | none =>
        exact jump_core_sorted task metric variant iteration refresh maxv index
          (mint_id env).2 (mint_id env).1 r env' (cacheSorted_mint env henv) hrun

/-- Witness for C5: the resolver output on the recycling index is sorted,
and advancing on a concrete sorted cache returns a sorted cache. -/
theorem C5_variant_states_sorted_witness :
    List.Pairwise (fun (a b : String × Int × Int) => a.1 ≤ b.1)
      (get_variant_iterations "t" "m" [] 10 c1Index) ∧ cacheSorted c6Env :=
  ⟨C5_variant_states_sorted.1 "t" "m" [] 10 c1Index,
   C5_variant_states_sorted.2.2.2.1 "t" "s1" false [] c6Env
     { scroll_id := some "s1" } c6Env
     (fun p hp => by
       rcases List.mem_singleton.1 hp with rfl
       exact List.Pairwise.nil)
     rfl⟩

/-- The result half of `jump_body` depends on the state only through its
id and variant states (never on the cache environment). -/
theorem jump_body_fst_congr (task metric variant : String) (iteration : Option Int)
    (index : List Document) (env1 env2 : CacheEnv) (s1 s2 : DebugSampleHistoryState)
    (hid : s1.id = s2.id) (hvs : s1.variant_states = s2.variant_states) :
    (jump_body task metric variant iteration index env1 s1).1 =
    (jump_body task metric variant iteration index env2 s2).1 := by
  cases hfind : s2.variant_states.find? (fun s => decide (s.name = variant)) with
  | none =>
    have hfind1 : s1.variant_states.find? (fun s => decide (s.name = variant)) = none := by
      rw [hvs, hfind]
    simp only [jump_body, hfind, hfind1, hid]
  | some var_state =>
    have hfind1 : s1.variant_states.find? (fun s => decide (s.name = variant))
        = some var_state := by
      rw [hvs, hfind]
    cases hfh : firstHit (fun b d => decide (d.iter < b.iter))
        (index.filter fun d =>
          decide (d.task = task) && decide (d.metric = metric) && decide (d.variant = variant)
            && d.url.isSome && decide (var_state.min_iteration ≤ d.iter)
            && (match iteration with | some it => decide (d.iter ≤ it) | none => true)) with
    | none => simp only [jump_body, hfind, hfind1, hfh, hid]
    | some image =>
      simp only [jump_body, hfind, hfind1, hfh, hid]
      exact fill_fst_congr image _ s1 s2 hvs

/-- Reading back the key just saved returns the saved state. -/
theorem get_state_set_self (env : CacheEnv) (st : DebugSampleHistoryState) :
    get_state (set_state env st) st.id = some st := by
  show (((st.id, st) :: env.cache.filter (fun p => !(decide (p.1 = st.id)))).find?
      (fun p => decide (p.1 = st.id))).map (·.2) = some st
  rw [List.find?_cons_of_pos _ (by simp)]
  rfl

/-- Dropping the entries of one key does not change a lookup of a
different key. -/
theorem find_key_filter_ne (l : List (String × DebugSampleHistoryState)) (sid k : String)
    (h : sid ≠ k) :
    (l.filter (fun p => !(decide (p.1 = k)))).find? (fun p => decide (p.1 = sid)) =
      l.find? (fun p => decide (p.1 = sid)) := by
  induction l with
  | nil => rfl
  | cons a t ih =>
    by_cases hak : a.1 = k
    · rw [List.filter_cons_of_neg (by simp [hak]), ih,
        List.find?_cons_of_neg _ (by simp [hak]; exact fun he => h he.symm)]
    · rw [List.filter_cons_of_pos (by simp [hak])]
      by_cases has : a.1 = sid
      · rw [List.find?_cons_of_pos _ (by simp [has]), List.find?_cons_of_pos _ (by simp [has])]
      · rw [List.find?_cons_of_neg _ (by simp [has]), List.find?_cons_of_neg _ (by simp [has]),
          ih]

/-- Saving a state does not change the lookup of a different key. -/
theorem get_state_set_ne (env : CacheEnv) (st : DebugSampleHistoryState) (sid : String)
    (h : sid ≠ st.id) :
    get_state (set_state env st) sid = get_state env sid := by
  show (((st.id, st) :: env.cache.filter (fun p => !(decide (p.1 = st.id)))).find?
      (fun p => decide (p.1 = sid))).map (·.2) =
    (env.cache.find? (fun p => decide (p.1 = sid))).map (·.2)
  rw [List.find?_cons_of_neg _ (by simp; exact fun he => h he.symm),
    find_key_filter_ne env.cache sid st.id h]

/-- C8 (amended): with a cursor id supplied, calling
`get_debug_image_for_variant` twice in a row with identical arguments and
no intervening change to the indexed data yields the same result both
times — same scroll id, event and iteration bounds.  (With no cursor id
supplied each call mints a fresh id, so the scroll ids differ.) -/
theorem C8_jump_idempotent_with_cursor (task metric variant : String) (iteration : Option Int)
    (refresh : Bool) (cid : String) (maxv : Nat) (index : List Document)
    (env env1 env2 : CacheEnv) (r1 r2 : DebugSampleHistoryResult)
    (h1 : get_debug_image_for_variant task metric variant iteration refresh (some cid) maxv
      index env = .ok (r1, env1))
    (h2 : get_debug_image_for_variant task metric variant iteration refresh (some cid) maxv
      index env1 = .ok (r2, env2)) :
    r1 = r2 := by
  rw [get_debug_image_for_variant.eq_def] at h1 h2
  cases hemp : check_empty_data index with
  | true =>
    rw [hemp] at h1 h2
    simp only [if_true, Except.ok.injEq, Prod.mk.injEq] at h1 h2
    rw [← h1.1, ← h2.1]
  | false =>
    rw [hemp] at h1 h2
    simp only [Bool.false_eq_true, if_false] at h1 h2
    have h1' : (match get_state env cid with
      | some state0 =>
        if state0.task ≠ task ∨ state0.metric ≠ metric then
          Except.error (ApiError.invalidScrollId cid)
        else
          Except.ok (jump_body task metric variant iteration index env
            (if refresh then reset_variant_states maxv index state0 else state0))
      | none =>
        Except.ok (jump_body task metric variant iteration index env
          (reset_variant_states maxv index (new_state cid task metric)))) = .ok (r1, env1) := h1
    have h2' : (match get_state env1 cid with
      | some state0 =>
        if state0.task ≠ task ∨ state0.metric ≠ metric then
          Except.error (ApiError.invalidScrollId cid)
        else
          Except.ok (jump_body task metric variant iteration index env1
            (if refresh then reset_variant_states maxv index state0 else state0))
      | none =>
        Except.ok (jump_body task metric variant iteration index env1
          (reset_variant_states maxv index (new_state cid task metric)))) = .ok (r2, env2) := h2
    cases hg : get_state env cid with
    | none =>
      rw [hg] at h1'
      have h1v : (Except.ok (jump_body task metric variant iteration index env
          (reset_variant_states maxv index (new_state cid task metric))) :
          Except ApiError (DebugSampleHistoryResult × CacheEnv)) = .ok (r1, env1) := h1'
      simp only [Except.ok.injEq] at h1v
      obtain ⟨s, hs2, hsid, hstask, hsmetric, hsvs⟩ :=
        jump_body_saved task metric variant iteration index env
          (reset_variant_states maxv index (new_state cid task metric))
      have henv1 : env1 = set_state env s := by rw [← hs2, h1v]
      have hsid' : s.id = cid := hsid
      have hstask' : s.task = task := hstask
      have hsmetric' : s.metric = metric := hsmetric
      have hget2 : get_state env1 cid = some s := by
        rw [henv1, ← hsid']
        exact get_state_set_self env s
      rw [hget2] at h2'
      have h2v : (if s.task ≠ task ∨ s.metric ≠ metric then
          (Except.error (ApiError.invalidScrollId cid) :
            Except ApiError (DebugSampleHistoryResult × CacheEnv))
        else Except.ok (jump_body task metric variant iteration index env1
          (if refresh then reset_variant_states maxv index s else s))) = .ok (r2, env2) := h2'
      rw [if_neg (fun hc => hc.elim (fun hn => hn hstask') (fun hn => hn hsmetric'))] at h2v
      simp only [Except.ok.injEq] at h2v
      have hr1 : r1 = (jump_body task metric variant iteration index env
          (reset_variant_states maxv index (new_state cid task metric))).1 := by rw [h1v]
      have hr2 : r2 = (jump_body task metric variant iteration index env1
          (if refresh then reset_variant_states maxv index s else s)).1 := by rw [h2v]
      rw [hr1, hr2]
      apply jump_body_fst_congr
      · cases refresh with
        | true => exact hsid'.symm
        | false => exact hsid'.symm
      · cases refresh with
        | true =>
          show (get_variant_iterations task metric [] maxv index).map
              (fun t => (⟨t.1, t.2.1, t.2.2⟩ : VariantState)) =
            (get_variant_iterations s.task s.metric [] maxv index).map
              (fun t => (⟨t.1, t.2.1, t.2.2⟩ : VariantState))
          rw [hstask', hsmetric']
        | false => exact hsvs.symm
    | some st0 =>
      rw [hg] at h1'
      have h1v : (if st0.task ≠ task ∨ st0.metric ≠ metric then
          (Except.error (ApiError.invalidScrollId cid) :
            Except ApiError (DebugSampleHistoryResult × CacheEnv))
        else Except.ok (jump_body task metric variant iteration index env
          (if refresh then reset_variant_states maxv index st0 else st0))) = .ok (r1, env1) := h1'
      by_cases hvv : st0.task ≠ task ∨ st0.metric ≠ metric
      · rw [if_pos hvv] at h1v
        exact absurd h1v (by simp)
      · rw [if_neg hvv] at h1v
        simp only [Except.ok.injEq] at h1v
        push_neg at hvv
        obtain ⟨s, hs2, hsid, hstask, hsmetric, hsvs⟩ :=
          jump_body_saved task metric variant iteration index env
            (if refresh then reset_variant_states maxv index st0 else st0)
        have henv1 : env1 = set_state env s := by rw [← hs2, h1v]
        have hsid0 : s.id = st0.id := by rw [hsid]; cases refresh <;> rfl
        have hstask0 : s.task = st0.task := by rw [hstask]; cases refresh <;> rfl
        have hsmetric0 : s.metric = st0.metric := by rw [hsmetric]; cases refresh <;> rfl
        by_cases hic : cid = st0.id
        · have hget2 : get_state env1 cid = some s := by
            rw [henv1, hic, ← hsid0]
            exact get_state_set_self env s
          rw [hget2] at h2'
          have h2v : (if s.task ≠ task ∨ s.metric ≠ metric then
              (Except.error (ApiError.invalidScrollId cid) :
                Except ApiError (DebugSampleHistoryResult × CacheEnv))
            else Except.ok (jump_body task metric variant iteration index env1
              (if refresh then reset_variant_states maxv index s else s))) = .ok (r2, env2) := h2'
          rw [if_neg (fun hc => hc.elim
            (fun hn => hn (by rw [hstask0, hvv.1]))
            (fun hn => hn (by rw [hsmetric0, hvv.2])))] at h2v
          simp only [Except.ok.injEq] at h2v
          have hr1 : r1 = (jump_body task metric variant iteration index env
              (if refresh then reset_variant_states maxv index st0 else st0)).1 := by rw [h1v]
          have hr2 : r2 = (jump_body task metric variant iteration index env1
              (if refresh then reset_variant_states maxv index s else s)).1 := by rw [h2v]
          rw [hr1, hr2]
          apply jump_body_fst_congr
          · cases refresh with
            | true => exact hsid0.symm
            | false => exact hsid0.symm
          · cases refresh with
            | true =>
              show (get_variant_iterations st0.task st0.metric [] maxv index).map
                  (fun t => (⟨t.1, t.2.1, t.2.2⟩ : VariantState)) =
                (get_variant_iterations s.task s.metric [] maxv index).map
                  (fun t => (⟨t.1, t.2.1, t.2.2⟩ : VariantState))
              rw [hstask0, hsmetric0]
            | false => exact hsvs.symm
        · have hget2 : get_state env1 cid = some st0 := by
            rw [henv1, get_state_set_ne env s cid (by rw [hsid0]; exact hic)]
            exact hg
          rw [hget2] at h2'
          have h2v : (if st0.task ≠ task ∨ st0.metric ≠ metric then
              (Except.error (ApiError.invalidScrollId cid) :
                Except ApiError (DebugSampleHistoryResult × CacheEnv))
            else Except.ok (jump_body task metric variant iteration index env1
              (if refresh then reset_variant_states maxv index st0 else st0))) = .ok (r2, env2) := h2'
          rw [if_neg (fun hc => hc.elim (fun hn => hn hvv.1) (fun hn => hn hvv.2))] at h2v
          simp only [Except.ok.injEq] at h2v
          have hr1 : r1 = (jump_body task metric variant iteration index env
              (if refresh then reset_variant_states maxv index st0 else st0)).1 := by rw [h1v]
          have hr2 : r2 = (jump_body task metric variant iteration index env1
              (if refresh then reset_variant_states maxv index st0 else st0)).1 := by rw [h2v]
          rw [hr1, hr2]
          exact jump_body_fst_congr task metric variant iteration index env env1 _ _ rfl rfl

/-- Witness for C8: two identical jump calls with the supplied cursor id
`c1` on a one-document index return the same result. -/
theorem C8_jump_idempotent_witness :
    ({ scroll_id := some "c1", event := some ⟨"t", "m", "v", 0, some "u"⟩,
       min_iteration := some (0 : Int), max_iteration := some (0 : Int) } :
      DebugSampleHistoryResult) =
    { scroll_id := some "c1", event := some ⟨"t", "m", "v", 0, some "u"⟩,
      min_iteration := some (0 : Int), max_iteration := some (0 : Int) } :=
  C8_jump_idempotent_with_cursor "t" "m" "v" none false "c1" 10 c8Index
    ⟨[], []⟩
    ⟨[("c1", ⟨"c1", 0, "v", "t", "m", false, false, [⟨"v", 0, 0⟩], none⟩)], []⟩
    ⟨[("c1", ⟨"c1", 0, "v", "t", "m", false, false, [⟨"v", 0, 0⟩], none⟩)], []⟩
    { scroll_id := some "c1", event := some ⟨"t", "m", "v", 0, some "u"⟩,
      min_iteration := some 0, max_iteration := some 0 }
    { scroll_id := some "c1", event := some ⟨"t", "m", "v", 0, some "u"⟩,
      min_iteration := some 0, max_iteration := some 0 }
    rfl rfl

/-- Counterexample to C8 as stated: with no cursor id supplied, the two
identical calls mint different fresh cursor ids, so the results differ in
their scroll id. -/
theorem C8_jump_fresh_cursor_cex :
    c8_call1.map (fun p => p.1.scroll_id) = .ok (some "f1") ∧
    c8_call2.map (fun p => p.1.scroll_id) = .ok (some "f2") ∧
    (some "f1" : Option String) ≠ some "f2" :=
  ⟨rfl, rfl, by decide⟩
